import Mathlib

/-!
A shallow embedding of the PubMed paper-fetcher pipeline
(`pubmed_fetcher.py`, `get_papers_list.py`) and proofs about it.

Network calls are modelled by passing the response data as explicit inputs;
regex searches over the payload text are modelled by character-list scanners
that follow the semantics of the concrete patterns used in the source.
-/

namespace PubMed

/-- The fixed industry-indicator keyword list (`NON_ACADEMIC_KEYWORDS`). -/
def NON_ACADEMIC_KEYWORDS : List String := ["Inc", "Ltd", "Pharmaceutical", "Biotech", "Corp", "LLC"]

/-- The academic-domain marker list (`ACADEMIC_DOMAINS`); defined but never consulted. -/
def ACADEMIC_DOMAINS : List String := [".edu", ".ac.", ".gov"]

/-- Python's `keyword in aff`: case-sensitive literal substring containment. -/
def keyword_in (aff : String) (k : String) : Bool := decide (k.data <:+: aff.data)

/-- `any(keyword in aff for keyword in NON_ACADEMIC_KEYWORDS)`. -/
def is_non_academic (aff : String) : Bool := NON_ACADEMIC_KEYWORDS.any (keyword_in aff)

/-- The classifier loop of `fetch_paper_details` (lines 59-63): iterate over the
affiliations with index `i`, appending `authors[i] if i < len(authors) else "Unknown"`
to `non_academic_authors` and adding the affiliation to `companies` whenever some
keyword occurs in the affiliation.  The Python `set` is modelled as a list with
insertion-order deduplication; no claim depends on the set's iteration order,
only on its membership. -/
def classifyLoop (authors : List String) (i : Nat) (nas cos : List String) : List String → List String × List String
  | [] => (nas, cos)
  | aff :: rest =>
    if is_non_academic aff then
      classifyLoop authors (i + 1) (nas ++ [authors.getD i "Unknown"]) (if aff ∈ cos then cos else cos ++ [aff]) rest
    else
      classifyLoop authors (i + 1) nas cos rest

/-- `(non_academic_authors, companies)` as computed by the loop in `fetch_paper_details`. -/
def classify (authors affs : List String) : List String × List String :=
  classifyLoop authors 0 [] [] affs

/-! ### Characterization of the classifier loop -/

/-- Non-accumulator form of the `non_academic_authors` component. -/
def nasSpec (authors : List String) (i : Nat) : List String → List String
  | [] => []
  | aff :: rest => (if is_non_academic aff then [authors.getD i "Unknown"] else []) ++ nasSpec authors (i + 1) rest

/-- Insertion into the deduplicated company list. -/
def insertCompany (cos : List String) (aff : String) : List String :=
  if aff ∈ cos then cos else cos ++ [aff]

theorem classifyLoop_eq (authors : List String) :
    ∀ (affs : List String) (i : Nat) (nas cos : List String),
      classifyLoop authors i nas cos affs =
        (nas ++ nasSpec authors i affs, (affs.filter is_non_academic).foldl insertCompany cos) := by
  intro affs
  induction affs with
  | nil => intro i nas cos; simp [classifyLoop, nasSpec]
  | cons aff rest ih =>
    intro i nas cos
    by_cases h : is_non_academic aff
    · simp [classifyLoop, nasSpec, h, ih, insertCompany]
    · simp [classifyLoop, nasSpec, h, ih]

theorem mem_foldl_insertCompany (l : List String) :
    ∀ (cos : List String) (s : String), s ∈ l.foldl insertCompany cos ↔ s ∈ cos ∨ s ∈ l := by
  induction l with
  | nil => intro cos s; simp
  | cons a t ih =>
    intro cos s
    rw [List.foldl_cons, ih]
    unfold insertCompany
    by_cases ha : a ∈ cos
    · simp only [if_pos ha, List.mem_cons]
      constructor
      · rintro (h | h)
        · exact Or.inl h
        · exact Or.inr (Or.inr h)
      · rintro (h | h | h)
        · exact Or.inl h
        · exact Or.inl (h ▸ ha)
        · exact Or.inr h
    · simp only [if_neg ha, List.mem_append, List.mem_singleton, List.mem_cons]
      tauto

theorem nasSpec_eq_enumFrom (authors : List String) :
    ∀ (affs : List String) (i : Nat),
      nasSpec authors i affs =
        ((List.enumFrom i affs).filter (fun p => is_non_academic p.2)).map
          (fun p => authors.getD p.1 "Unknown") := by
  intro affs
  induction affs with
  | nil => intro i; simp [nasSpec]
  | cons aff rest ih =>
    intro i
    by_cases h : is_non_academic aff
    · simp [nasSpec, h, ih, List.enumFrom, List.filter]
    · simp [nasSpec, h, ih, List.enumFrom, List.filter]

/-- C1: the classifier flags exactly the affiliations containing an industry keyword.
For each flagged affiliation at index `i`, `authors[i]` (or `"Unknown"` when out of
range) is appended; the affiliation itself is added to the companies collection;
unflagged affiliations contribute to neither output. -/
theorem classifier_exact (authors affs : List String) :
    (classify authors affs).1 =
      ((affs.enum.filter (fun p => is_non_academic p.2)).map (fun p => authors.getD p.1 "Unknown")) ∧
    (∀ s, s ∈ (classify authors affs).2 ↔ s ∈ affs ∧ is_non_academic s = true) := by
  constructor
  · rw [classify, classifyLoop_eq, nasSpec_eq_enumFrom]
    simp [List.enum]
  · intro s
    rw [classify, classifyLoop_eq]
    simp only [mem_foldl_insertCompany, List.not_mem_nil, false_or, List.mem_filter]

/-! ### Regex scanners

`re.search` / `re.findall` over the payload text, specialised to the concrete
patterns of the source.  `re.search` scans start positions left to right and
returns the first match; `scanFirst` does the same. -/

/-- Leftmost match: try the matcher at each start position, left to right. -/
def scanFirst {α : Type} (m : List Char → Option α) : List Char → Option α
  | [] => none
  | c :: cs =>
    match m (c :: cs) with
    | some a => some a
    | none => scanFirst m cs

/-- `(\d{1,2})` followed by the literal closing tag `cls`, at the current
position.  The regex is greedy with backtracking, but since `cls` begins with
`<` (not a digit), a two-digit match can never backtrack into a successful
one-digit match; the two attempts below are exhaustive.  `\d` is modelled as
the ASCII digits. -/
def digits12Before (cls : List Char) (rest : List Char) : Option (List Char) :=
  match rest with
  | d1 :: d2 :: rest2 =>
    if d1.isDigit then
      if d2.isDigit then
        if cls.isPrefixOf rest2 then some [d1, d2] else none
      else
        if cls.isPrefixOf (d2 :: rest2) then some [d1] else none
    else none
  | _ => none

/-- `<Year>(\d{4})</Year>` at the current position. -/
def matchYearAt (l : List Char) : Option (List Char) :=
  if ("<Year>".data).isPrefixOf l then
    let rest := l.drop 6
    let ds := rest.take 4
    if ds.length = 4 ∧ ds.all Char.isDigit ∧ ("</Year>".data).isPrefixOf (rest.drop 4) then
      some ds
    else none
  else none

/-- `<Month>([A-Za-z]+|\d{1,2})</Month>` at the current position.  The
alternation tries the letter branch first; since `</Month>` begins with `<`
(not a letter), greedy backtracking over `[A-Za-z]+` succeeds only with the
maximal letter run. -/
def matchMonthAt (l : List Char) : Option (List Char) :=
  if ("<Month>".data).isPrefixOf l then
    let rest := l.drop 7
    let letters := rest.takeWhile Char.isAlpha
    if letters.isEmpty then
      digits12Before ("</Month>".data) rest
    else
      if ("</Month>".data).isPrefixOf (rest.drop letters.length) then some letters else none
  else none

/-- `<Day>(\d{1,2})</Day>` at the current position. -/
def matchDayAt (l : List Char) : Option (List Char) :=
  if ("<Day>".data).isPrefixOf l then digits12Before ("</Day>".data) (l.drop 5) else none

/-- `re.search(r"<Year>(\d{4})</Year>", text)`, returning the captured group. -/
def searchYear (text : String) : Option String :=
  (scanFirst matchYearAt text.data).map List.asString

/-- `re.search(r"<Month>([A-Za-z]+|\d{1,2})</Month>", text)`. -/
def searchMonth (text : String) : Option String :=
  (scanFirst matchMonthAt text.data).map List.asString

/-- `re.search(r"<Day>(\d{1,2})</Day>", text)`. -/
def searchDay (text : String) : Option String :=
  (scanFirst matchDayAt text.data).map List.asString

/-- `clean_publication_date`: extract year, month and day independently and
compose.  Python's `if day:` is string truthiness, i.e. `day ≠ ""`. -/
def clean_publication_date (text : String) : String :=
  let year := (searchYear text).getD "Unknown"
  let month := (searchMonth text).getD "Unknown"
  let day := (searchDay text).getD ""
  if day ≠ "" then year ++ "-" ++ month ++ "-" ++ day
  else if month ≠ "Unknown" then year ++ "-" ++ month
  else year

/-! ### `(.*?)` tag extraction (`re.findall`) -/

/-- Consume the minimal run of non-newline characters up to the literal `cls`;
return the run and the remainder after `cls`.  This is `(.*?)cls` where `.`
does not match a newline.  `none` when a newline or the end of input is
reached first. -/
def findClose (cls : List Char) : List Char → Option (List Char × List Char)
  | [] => none
  | c :: cs =>
    if cls.isPrefixOf (c :: cs) then some ([], (c :: cs).drop cls.length)
    else if c = '\n' then none
    else
      match findClose cls cs with
      | some (cap, rest) => some (c :: cap, rest)
      | none => none

/-- `re.findall(opn ++ "(.*?)" ++ cls, text)`: scan left to right; at each
position where `opn` matches and a closing tag is reachable, emit the capture
and continue after the match (non-overlapping matches).  The fuel argument is
an upper bound on the number of scan steps; every step consumes at least one
character, so `text.length` suffices. -/
def findallTagAux (opn cls : List Char) : Nat → List Char → List (List Char)
  | 0, _ => []
  | _ + 1, [] => []
  | fuel + 1, c :: cs =>
    if opn.isPrefixOf (c :: cs) then
      match findClose cls ((c :: cs).drop opn.length) with
      | some (cap, rest) => cap :: findallTagAux opn cls fuel rest
      | none => findallTagAux opn cls fuel cs
    else findallTagAux opn cls fuel cs

/-- `re.findall` for the pattern `opn(.*?)cls`. -/
def findallTag (opn cls : List Char) (text : String) : List String :=
  (findallTagAux opn cls text.data.length text.data).map List.asString

/-- `re.search` for the pattern `opn(.*?)cls`: the first capture found by the
same left-to-right scan. -/
def searchTagFirst (opn cls : List Char) (text : String) : Option String :=
  (findallTag opn cls text).head?

/-- `re.findall(r"<Author>(.*?)</Author>", text)`. -/
def findAuthors (text : String) : List String :=
  findallTag ("<Author>".data) ("</Author>".data) text

/-- `re.findall(r"<Affiliation>(.*?)</Affiliation>", text)`. -/
def findAffiliations (text : String) : List String :=
  findallTag ("<Affiliation>".data) ("</Affiliation>".data) text

/-- `re.search(r"<ArticleTitle>(.*?)</ArticleTitle>", text)`. -/
def searchTitle (text : String) : Option String :=
  searchTagFirst ("<ArticleTitle>".data) ("</ArticleTitle>".data) text

/-! ### Email pattern -/

/-- Character class `[a-zA-Z0-9._%+-]` (the local part). -/
def isLocalChar (c : Char) : Bool :=
  c.isAlpha || c.isDigit || c = '.' || c = '_' || c = '%' || c = '+' || c = '-'

/-- Character class `[a-zA-Z0-9.-]` (the domain part). -/
def isDomainChar (c : Char) : Bool :=
  c.isAlpha || c.isDigit || c = '.' || c = '-'

/-- Within the maximal domain-class run, find the rightmost `.` followed by a
maximal letter run of length at least 2: this is the split chosen by greedy
backtracking of `[a-zA-Z0-9.-]+\.[a-zA-Z]{2,}`.  Returns the part before the
dot and the letter run after it. -/
def lastDotSplit : List Char → Option (List Char × List Char)
  | [] => none
  | c :: cs =>
    match lastDotSplit cs with
    | some (pre, tld) => some (c :: pre, tld)
    | none =>
      if c = '.' then
        let letters := cs.takeWhile Char.isAlpha
        if 2 ≤ letters.length then some ([], letters) else none
      else none

/-- `([a-zA-Z0-9._%+-]+@[a-zA-Z0-9.-]+\.[a-zA-Z]{2,})` at the current
position.  Since `@` is not a local-part character, only the maximal local run
can precede it; the `+` before `\.` must consume at least one character, so a
split with an empty part before the dot is rejected. -/
def matchEmailAt (l : List Char) : Option (List Char) :=
  let locRun := l.takeWhile isLocalChar
  if locRun.isEmpty then none
  else
    match l.drop locRun.length with
    | '@' :: rest =>
      let dom := rest.takeWhile isDomainChar
      match lastDotSplit dom with
      | some (pre, tld) =>
        if pre.isEmpty then none
        else some (locRun ++ '@' :: (pre ++ '.' :: tld))
      | none => none
    | _ => none

/-- `re.search` for the email pattern, returning the whole match (`group(0)`). -/
def searchEmail (text : String) : Option String :=
  (scanFirst matchEmailAt text.data).map List.asString

/-! ### The normalized record and `fetch_paper_details` -/

/-- The dictionary returned by `fetch_paper_details`, with its six keys in
insertion order: `PubmedID`, `Title`, `Publication Date`,
`Non-academic Author(s)`, `Company Affiliation(s)`,
`Corresponding Author Email`. -/
structure Record where
  PubmedID : String
  Title : String
  PublicationDate : String
  NonAcademicAuthors : String
  CompanyAffiliations : String
  CorrespondingAuthorEmail : String
deriving DecidableEq

/-- The six dictionary keys, in insertion order (`papers[0].keys()`). -/
def headerFields : List String :=
  ["PubmedID", "Title", "Publication Date", "Non-academic Author(s)",
   "Company Affiliation(s)", "Corresponding Author Email"]

/-- The values of a record in the key order above. -/
def recordToRow (r : Record) : List String :=
  [r.PubmedID, r.Title, r.PublicationDate, r.NonAcademicAuthors,
   r.CompanyAffiliations, r.CorrespondingAuthorEmail]

/-- The extraction part of `fetch_paper_details`: the network fetch is
modelled by passing the response body `text` explicitly. -/
def fetch_paper_details (paper_id : String) (text : String) : Record :=
  let title := searchTitle text
  let publication_date := clean_publication_date text
  let authors := findAuthors text
  let affiliations := findAffiliations text
  let res := classify authors affiliations
  let email := searchEmail text
  { PubmedID := paper_id
    Title := title.getD "N/A"
    PublicationDate := publication_date
    NonAcademicAuthors := if res.1.isEmpty then "None" else String.intercalate ", " res.1
    CompanyAffiliations := if res.2.isEmpty then "None" else String.intercalate ", " res.2
    CorrespondingAuthorEmail := email.getD "Not found" }

/-! ### `fetch_paper_ids` and `get_papers` -/

/-- The JSON object under the key `esearchresult`, as far as the code reads
it: possibly missing, and possibly missing its `idlist` key. -/
structure ESearchResult where
  idlist : Option (List String)
deriving DecidableEq

/-- The decoded search response; `esearchresult = none` models a JSON body
without that key. -/
structure ESearchResponse where
  esearchresult : Option ESearchResult
deriving DecidableEq

/-- The query parameters of the search request. -/
def searchParams (query : String) (max_results : Nat) : List (String × String) :=
  [("db", "pubmed"), ("term", query), ("retmode", "json"), ("retmax", toString max_results)]

/-- `fetch_paper_ids`: `data.get("esearchresult", {}).get("idlist", [])`.  The
network call is modelled by passing the decoded response; `max_results` is
sent in the request (see `searchParams`) but never used to truncate. -/
def fetch_paper_ids (resp : ESearchResponse) : List String :=
  match resp.esearchresult with
  | none => []
  | some r => r.idlist.getD []

/-- `get_papers`: fetch the id list, then fetch details per id, in order.
`detailBody pid` models the body of the per-id detail response. -/
def get_papers (searchResp : ESearchResponse) (detailBody : String → String) : List Record :=
  let paper_ids := fetch_paper_ids searchResp
  paper_ids.map (fun pid => fetch_paper_details pid (detailBody pid))

/-! ### CSV writing (`save_to_csv`)

`csv.DictWriter` with the default dialect: delimiter `,`, quote char `"`,
line terminator `"\r\n"`, minimal quoting — a field is quoted iff it contains
the delimiter, the quote char, or a line-terminator character; quote chars
are escaped by doubling. -/

/-- Is `c` a character that forces quoting under minimal quoting? -/
def isCsvSpecial (c : Char) : Bool := c = ',' || c = '"' || c = '\r' || c = '\n'

/-- Double every quote character. -/
def escapeQuotes : List Char → List Char
  | [] => []
  | c :: cs => if c = '"' then '"' :: '"' :: escapeQuotes cs else c :: escapeQuotes cs

/-- Render one field, quoting it when it contains a special character. -/
def renderField (s : String) : List Char :=
  if s.data.any isCsvSpecial then '"' :: (escapeQuotes s.data ++ ['"']) else s.data

/-- Render the fields of one row, comma-separated. -/
def renderFields : List String → List Char
  | [] => []
  | [f] => renderField f
  | f :: fs => renderField f ++ ',' :: renderFields fs

/-- Render one row with the `"\r\n"` terminator. -/
def renderRow (fields : List String) : List Char :=
  renderFields fields ++ ['\r', '\n']

/-- Render all rows. -/
def renderRows : List (List String) → List Char
  | [] => []
  | row :: rows => renderRow row ++ renderRows rows

/-- The error taxonomy of the spec for the sink: raised when there are no
records from which to derive a header (`papers[0]`). -/
inductive CsvError where
  | emptyInput
deriving DecidableEq

/-- `save_to_csv`: derive the header from the first record's keys, then write
the header row and one row per record.  On an empty list, `papers[0]` fails:
`EmptyInputError` of the spec.  The result is the full file content. -/
def save_to_csv (papers : List Record) : Except CsvError String :=
  match papers with
  | [] => Except.error CsvError.emptyInput
  | _ :: _ => Except.ok (renderRows (headerFields :: papers.map recordToRow)).asString

/-! ### CSV reading

Modelled from the spec: reading the delimited file back (the repository
itself only writes; the reader applies the standard escaping rules of §6:
UTF-8 delimited file, standard delimiter escaping for embedded
delimiters/quotes/newlines). -/

/-- Parse a quoted field body: the input starts right after the opening
quote.  A doubled quote is a literal quote; a single quote closes the field.
Returns the field content and the rest after the closing quote. -/
def parseQuoted : List Char → List Char × List Char
  | [] => ([], [])
  | c :: cs =>
    if c = '"' then
      match cs with
      | [] => ([], [])
      | c2 :: cs2 =>
        if c2 = '"' then
          let r := parseQuoted cs2
          ('"' :: r.1, r.2)
        else ([], cs)
    else
      let r := parseQuoted cs
      (c :: r.1, r.2)

/-- Parse an unquoted field: everything up to a comma or line terminator. -/
def parseUnquoted : List Char → List Char × List Char
  | [] => ([], [])
  | c :: cs =>
    if c = ',' || c = '\r' || c = '\n' then ([], c :: cs)
    else
      let r := parseUnquoted cs
      (c :: r.1, r.2)

/-- Parse one field, quoted or unquoted. -/
def parseField : List Char → String × List Char
  | [] => ("", [])
  | c :: cs =>
    if c = '"' then
      let r := parseQuoted cs
      (r.1.asString, r.2)
    else
      let r := parseUnquoted (c :: cs)
      (r.1.asString, r.2)

/-- Parse one row: fields separated by commas, ended by a line terminator
(`"\r\n"`, `"\r"` or `"\n"`) or the end of input.  `fuel` bounds the number
of fields. -/
def parseRecordFuel : Nat → List Char → List String × List Char
  | 0, cs => ([], cs)
  | fuel + 1, cs =>
    let fr := parseField cs
    match fr.2 with
    | [] => ([fr.1], [])
    | c :: cs2 =>
      if c = ',' then
        let rr := parseRecordFuel fuel cs2
        (fr.1 :: rr.1, rr.2)
      else if c = '\r' then
        if cs2.head? = some '\n' then ([fr.1], cs2.tail) else ([fr.1], cs2)
      else ([fr.1], cs2)

/-- Parse all rows.  `fuel` bounds the number of rows. -/
def parseRowsFuel : Nat → List Char → List (List String)
  | 0, _ => []
  | fuel + 1, cs =>
    if cs.isEmpty then []
    else
      let rr := parseRecordFuel (cs.length + 1) cs
      rr.1 :: parseRowsFuel fuel rr.2

/-- Parse a CSV file into its rows. -/
def parseCSV (s : String) : List (List String) :=
  parseRowsFuel (s.data.length + 1) s.data

/-! ### The command-line entry point (`get_papers_list.main`) -/

/-- One item printed to standard output. -/
inductive OutItem where
  | debugMsg (s : String)
  | recordLine (r : Record)
  | savedMsg (s : String)
deriving DecidableEq

/-- `main`: parse args (modelled as the `debug` and `file` parameters and the
positional `query`), optionally print the debug line, fetch the papers, then
either write the CSV file and print a confirmation, or print each record.
The returned pair is the standard-output trace and the outcome: on success,
`some (filename, content)` in file mode and `none` in console mode; the
`EmptyInputError` of `save_to_csv` propagates. -/
def mainRun (searchResp : ESearchResponse) (detailBody : String → String)
    (query : String) (debug : Bool) (file : Option String) :
    List OutItem × Except CsvError (Option (String × String)) :=
  let dbg : List OutItem := if debug then [OutItem.debugMsg ("Fetching papers for query: " ++ query)] else []
  let papers := get_papers searchResp detailBody
  match file with
  | some f =>
    match save_to_csv papers with
    | Except.ok content => (dbg ++ [OutItem.savedMsg ("Results saved to " ++ f)], Except.ok (some (f, content)))
    | Except.error e => (dbg, Except.error e)
  | none => (dbg ++ papers.map OutItem.recordLine, Except.ok none)

/-! ### Claim C2: date composition -/

theorem digits12Before_ne_nil {cls rest : List Char} {d : List Char}
    (h : digits12Before cls rest = some d) : d ≠ [] := by
  unfold digits12Before at h
  match rest with
  | [] => simp at h
  | [d1] => simp at h
  | d1 :: d2 :: rest2 =>
    simp only at h
    by_cases h1 : d1.isDigit
    · rw [if_pos h1] at h
      by_cases h2 : d2.isDigit
      · rw [if_pos h2] at h
        split at h
        · simp at h; simp [← h]
        · simp at h
      · rw [if_neg h2] at h
        split at h
        · simp at h; simp [← h]
        · simp at h
    · rw [if_neg h1] at h; simp at h

theorem matchDayAt_ne_nil {l : List Char} {d : List Char}
    (h : matchDayAt l = some d) : d ≠ [] := by
  unfold matchDayAt at h
  split at h
  · exact digits12Before_ne_nil h
  · simp at h

theorem scanFirst_pred {α : Type} {m : List Char → Option α} {P : α → Prop}
    (hm : ∀ l a, m l = some a → P a) :
    ∀ l a, scanFirst m l = some a → P a := by
  intro l
  induction l with
  | nil => intro a h; simp [scanFirst] at h
  | cons c cs ih =>
    intro a h
    rw [scanFirst] at h
    cases hm' : m (c :: cs) with
    | some b => rw [hm'] at h; cases h; exact hm _ _ hm'
    | none => rw [hm'] at h; exact ih a h

theorem searchDay_ne_empty {text : String} {d : String}
    (h : searchDay text = some d) : d ≠ "" := by
  unfold searchDay at h
  cases hs : scanFirst matchDayAt text.data with
  | none => rw [hs] at h; simp at h
  | some l =>
    rw [hs] at h
    simp at h
    have hl : l ≠ [] := scanFirst_pred (fun l a ha => matchDayAt_ne_nil ha) _ _ hs
    intro hcontr
    apply hl
    have hd : l.asString = "" := by rw [h, hcontr]
    have := congrArg String.data hd
    simpa [List.asString] using this

/-- C2 (amended): the date is composed as `year-month-day` when a day was
extracted, as `year-month` when no day but a month was extracted whose value
is not the literal string `"Unknown"`, and as the year alone otherwise, with
the sentinel `"Unknown"` standing in for missing components. -/
theorem date_composition (text : String) :
    (∀ d, searchDay text = some d →
      clean_publication_date text =
        (searchYear text).getD "Unknown" ++ "-" ++ (searchMonth text).getD "Unknown" ++ "-" ++ d) ∧
    (searchDay text = none → ∀ m, searchMonth text = some m → m ≠ "Unknown" →
      clean_publication_date text = (searchYear text).getD "Unknown" ++ "-" ++ m) ∧
    (searchDay text = none → (searchMonth text).getD "Unknown" = "Unknown" →
      clean_publication_date text = (searchYear text).getD "Unknown") := by
  refine ⟨?_, ?_, ?_⟩
  · intro d hd
    have hne : d ≠ "" := searchDay_ne_empty hd
    unfold clean_publication_date
    rw [hd]
    simp [hne]
  · intro hd m hm hne
    unfold clean_publication_date
    rw [hd, hm]
    simp [hne]
  · intro hd hm
    unfold clean_publication_date
    rw [hd, hm]
    simp

theorem date_composition_witness :
    clean_publication_date "<Year>2021</Year><Month>Jan</Month><Day>15</Day>" = "2021-Jan-15" := by
  have h := (date_composition "<Year>2021</Year><Month>Jan</Month><Day>15</Day>").1 "15" (by decide)
  exact h.trans (by decide)

/-- C2 (counterexample): on the payload `<Year>2021</Year><Month>Unknown</Month>`
a month *is* extracted (the word `Unknown` matches `[A-Za-z]+`) and no day is,
so the claim's composition rule demands `year-month = "2021-Unknown"`; the code
compares the extracted month against the sentinel and yields `"2021"`. -/
theorem date_composition_counterexample :
    searchYear "<Year>2021</Year><Month>Unknown</Month>" = some "2021" ∧
    searchMonth "<Year>2021</Year><Month>Unknown</Month>" = some "Unknown" ∧
    searchDay "<Year>2021</Year><Month>Unknown</Month>" = none ∧
    clean_publication_date "<Year>2021</Year><Month>Unknown</Month>" = "2021" ∧
    clean_publication_date "<Year>2021</Year><Month>Unknown</Month>" ≠ "2021-Unknown" := by
  refine ⟨by decide, by decide, by decide, by decide, by decide⟩

/-! ### Claim C3: author/affiliation alignment -/

theorem getD_take_of_lt {l : List String} {i n : Nat} (h : i < n) :
    (l.take n).getD i "Unknown" = l.getD i "Unknown" := by
  rcases Nat.lt_or_ge i l.length with hi | hi
  · rw [List.getD_eq_getElem _ _ (by simpa [Nat.lt_min] using ⟨h, hi⟩),
      List.getD_eq_getElem _ _ hi]
    exact List.getElem_take ..
  · rw [List.getD_eq_default _ _ (by simpa using Or.inr hi),
      List.getD_eq_default _ _ hi]

theorem nasSpec_take (authors : List String) :
    ∀ (affs : List String) (i n : Nat), i + affs.length ≤ n →
      nasSpec (authors.take n) i affs = nasSpec authors i affs := by
  intro affs
  induction affs with
  | nil => intro i n _; simp [nasSpec]
  | cons aff rest ih =>
    intro i n hn
    simp only [List.length_cons] at hn
    unfold nasSpec
    rw [ih (i + 1) n (by omega), getD_take_of_lt (by omega)]

theorem classify_take (authors affs : List String) :
    classify authors affs = classify (authors.take affs.length) affs := by
  unfold classify
  rw [classifyLoop_eq, classifyLoop_eq, nasSpec_take authors affs 0 affs.length (by omega)]

theorem mem_nasSpec_of (authors : List String) :
    ∀ (affs : List String) (i0 i : Nat) (h : i < affs.length),
      is_non_academic (affs.get ⟨i, h⟩) = true →
      authors.getD (i0 + i) "Unknown" ∈ nasSpec authors i0 affs := by
  intro affs
  induction affs with
  | nil => intro i0 i h; simp at h
  | cons aff rest ih =>
    intro i0 i h hflag
    match i with
    | 0 =>
      simp only [List.get] at hflag
      simp [nasSpec, hflag]
    | Nat.succ j =>
      have hj : j < rest.length := by simpa using h
      have := ih (i0 + 1) j hj (by simpa using hflag)
      unfold nasSpec
      rw [List.mem_append]
      right
      have harith : i0 + 1 + j = i0 + (j + 1) := by omega
      rwa [harith] at this

/-- C3 (counterexample): an affiliation with no corresponding author (index 0,
empty author list) is *not* ignored: it is classified with the placeholder
author `"Unknown"` and its affiliation enters the companies collection, so the
output differs from the one obtained after discarding the extra affiliations. -/
theorem alignment_counterexample :
    classify [] ["Moderna Inc"] = (["Unknown"], ["Moderna Inc"]) ∧
    classify [] ["Moderna Inc"] ≠ classify [] ([] : List String) ∧
    ¬ ((classify [] ["Moderna Inc"]).1 = [] ∧ (classify [] ["Moderna Inc"]).2 = []) := by
  refine ⟨by decide, by decide, by decide⟩

/-- C3 (amended): extraction never fails on mismatched lengths.  When the
author list is longer than the affiliation list the extra authors are ignored
(the classifier reads only the first `affs.length` authors); when the
affiliation list is longer, each extra flagged affiliation is paired with the
placeholder author `"Unknown"` and still contributes its company. -/
theorem alignment_behavior (authors affs : List String) :
    classify authors affs = classify (authors.take affs.length) affs ∧
    (∀ i, (h : i < affs.length) → authors.length ≤ i →
      is_non_academic (affs.get ⟨i, h⟩) = true →
      "Unknown" ∈ (classify authors affs).1 ∧ affs.get ⟨i, h⟩ ∈ (classify authors affs).2) := by
  constructor
  · exact classify_take authors affs
  · intro i h hlen hflag
    constructor
    · have := mem_nasSpec_of authors affs 0 i h hflag
      rw [List.getD_eq_default _ _ (by omega)] at this
      unfold classify
      rw [classifyLoop_eq]
      simpa using this
    · unfold classify
      rw [classifyLoop_eq]
      simp only [mem_foldl_insertCompany, List.not_mem_nil, false_or, List.mem_filter]
      exact ⟨List.get_mem affs i h, hflag⟩

theorem alignment_behavior_witness :
    "Unknown" ∈ (classify [] ["Moderna Inc"]).1 ∧
    "Moderna Inc" ∈ (classify [] ["Moderna Inc"]).2 := by
  have h := (alignment_behavior [] ["Moderna Inc"]).2 0 (by decide) (by decide) (by decide)
  exact h

/-! ### Claim C4: empty input -/

/-- C4: when the search yields no identifiers, file mode fails with
`EmptyInputError` (no header can be derived from `papers[0]`), while console
mode prints nothing and terminates normally. -/
theorem empty_input_behavior (resp : ESearchResponse) (detailBody : String → String)
    (query f : String) (h : fetch_paper_ids resp = []) :
    save_to_csv (get_papers resp detailBody) = Except.error CsvError.emptyInput ∧
    (mainRun resp detailBody query false (some f)).2 = Except.error CsvError.emptyInput ∧
    (mainRun resp detailBody query false none).1 = [] ∧
    (mainRun resp detailBody query false none).2 = Except.ok none := by
  have hp : get_papers resp detailBody = [] := by
    unfold get_papers
    rw [h]
    rfl
  refine ⟨by rw [hp]; rfl, ?_, ?_, ?_⟩ <;> simp [mainRun, hp, save_to_csv]

theorem empty_input_behavior_witness :
    save_to_csv (get_papers ⟨some ⟨some []⟩⟩ (fun _ => "")) = Except.error CsvError.emptyInput ∧
    (mainRun ⟨some ⟨some []⟩⟩ (fun _ => "") "cancer" false (some "out.csv")).2 = Except.error CsvError.emptyInput ∧
    (mainRun ⟨some ⟨some []⟩⟩ (fun _ => "") "cancer" false none).1 = [] ∧
    (mainRun ⟨some ⟨some []⟩⟩ (fun _ => "") "cancer" false none).2 = Except.ok none :=
  empty_input_behavior ⟨some ⟨some []⟩⟩ (fun _ => "") "cancer" "out.csv" rfl

/-! ### Claim C5: extraction is total, with sentinel fallbacks -/

theorem findallTagAux_nil_of_no_tag {opn cls : List Char} :
    ∀ (fuel : Nat) (text : List Char), ¬ (opn <:+: text) →
      findallTagAux opn cls fuel text = [] := by
  intro fuel
  induction fuel with
  | zero => intro text _; rfl
  | succ n ih =>
    intro text hinf
    match text with
    | [] => rfl
    | c :: cs =>
      have hpre : opn.isPrefixOf (c :: cs) = false := by
        rw [Bool.eq_false_iff]
        intro hp
        exact hinf (List.isPrefixOf_iff_prefix.mp hp).isInfix
      have htail : ¬ (opn <:+: cs) := fun hc => hinf (List.infix_cons hc)
      rw [findallTagAux, if_neg (by simp [hpre])]
      exact ih cs htail

/-- C5: field extraction is total and degrades to sentinels: a payload without
a title yields `"N/A"`, without an email yields `"Not found"`, without any
date component yields `"Unknown"`, and without author/affiliation tags yields
empty lists; no missing field is an error. -/
theorem extraction_sentinels (paper_id text : String) :
    (searchTitle text = none → (fetch_paper_details paper_id text).Title = "N/A") ∧
    (searchEmail text = none →
      (fetch_paper_details paper_id text).CorrespondingAuthorEmail = "Not found") ∧
    (searchYear text = none → searchMonth text = none → searchDay text = none →
      (fetch_paper_details paper_id text).PublicationDate = "Unknown") ∧
    (¬ (("<Author>".data) <:+: text.data) → findAuthors text = []) ∧
    (¬ (("<Affiliation>".data) <:+: text.data) → findAffiliations text = []) := by
  refine ⟨?_, ?_, ?_, ?_, ?_⟩
  · intro h
    simp [fetch_paper_details, h]
  · intro h
    simp [fetch_paper_details, h]
  · intro hy hm hd
    simp [fetch_paper_details, clean_publication_date, hy, hm, hd]
  · intro h
    unfold findAuthors findallTag
    rw [findallTagAux_nil_of_no_tag _ _ h]
    rfl
  · intro h
    unfold findAffiliations findallTag
    rw [findallTagAux_nil_of_no_tag _ _ h]
    rfl

theorem extraction_sentinels_witness :
    (fetch_paper_details "123" "").Title = "N/A" ∧
    (fetch_paper_details "123" "").CorrespondingAuthorEmail = "Not found" ∧
    (fetch_paper_details "123" "").PublicationDate = "Unknown" ∧
    findAuthors "" = [] ∧
    findAffiliations "" = [] := by
  have h := extraction_sentinels "123" ""
  exact ⟨h.1 (by decide), h.2.1 (by decide), h.2.2.1 (by decide) (by decide) (by decide),
    h.2.2.2.1 (by decide), h.2.2.2.2 (by decide)⟩

/-! ### Claim C6: the search client's result bound -/

/-- C6 (counterexample): the client performs no truncation or validation of
the identifier list; a decoded response carrying three identifiers, one of
them empty, is returned verbatim even when the requested maximum was 1. -/
theorem search_bound_counterexample :
    fetch_paper_ids ⟨some ⟨some ["39000001", "", "39000003"]⟩⟩ = ["39000001", "", "39000003"] ∧
    ¬ ((fetch_paper_ids ⟨some ⟨some ["39000001", "", "39000003"]⟩⟩).length ≤ 1) ∧
    ¬ (∀ s ∈ fetch_paper_ids ⟨some ⟨some ["39000001", "", "39000003"]⟩⟩, s ≠ "") := by
  refine ⟨rfl, by decide, ?_⟩
  intro hall
  exact hall "" (by decide) rfl

/-- C6 (amended): the client sends `retmax = N` with the request and returns
the response's identifier list unchanged, so whenever the remote service
honours `retmax` — at most `N` identifiers, each non-empty — the returned
sequence is ordered, has length at most `N`, and contains only non-empty
identifiers; the client itself enforces no bound. -/
theorem search_bound_amended (query : String) (N : Nat) (l : List String)
    (hlen : l.length ≤ N) (hne : ∀ s ∈ l, s ≠ "") :
    ("retmax", toString N) ∈ searchParams query N ∧
    fetch_paper_ids ⟨some ⟨some l⟩⟩ = l ∧
    (fetch_paper_ids ⟨some ⟨some l⟩⟩).length ≤ N ∧
    (∀ s ∈ fetch_paper_ids ⟨some ⟨some l⟩⟩, s ≠ "") := by
  refine ⟨by simp [searchParams], rfl, ?_, ?_⟩
  · simpa [fetch_paper_ids] using hlen
  · simpa [fetch_paper_ids] using hne

theorem search_bound_amended_witness :
    ("retmax", toString 2) ∈ searchParams "cancer" 2 ∧
    fetch_paper_ids ⟨some ⟨some ["39000001", "39000002"]⟩⟩ = ["39000001", "39000002"] ∧
    (fetch_paper_ids ⟨some ⟨some ["39000001", "39000002"]⟩⟩).length ≤ 2 ∧
    (∀ s ∈ fetch_paper_ids ⟨some ⟨some ["39000001", "39000002"]⟩⟩, s ≠ "") :=
  search_bound_amended "cancer" 2 ["39000001", "39000002"] (by decide) (by decide)

/-! ### Claim C7: one record per identifier, in order -/

theorem PubmedID_fetch (paper_id text : String) :
    (fetch_paper_details paper_id text).PubmedID = paper_id := rfl

/-- C7: the pipeline produces exactly one record per identifier, in the order
of the identifier list, and the i-th record's `PubmedID` is the i-th
identifier (stated as: mapping `PubmedID` over the records recovers the
identifier list). -/
theorem pipeline_order (resp : ESearchResponse) (detailBody : String → String) :
    (get_papers resp detailBody).length = (fetch_paper_ids resp).length ∧
    (get_papers resp detailBody).map Record.PubmedID = fetch_paper_ids resp := by
  constructor
  · unfold get_papers
    exact List.length_map _ _
  · unfold get_papers
    rw [List.map_map]
    exact List.map_id _

/-! ### Claim C9: the debug flag has no behavioral effect -/

/-- C9: running with the debug flag yields the same outcome (file content or
console records, and the same error, if any); the only difference is one
additional debug line printed first. -/
theorem debug_flag_no_effect (resp : ESearchResponse) (detailBody : String → String)
    (query : String) (file : Option String) :
    (mainRun resp detailBody query true file).2 = (mainRun resp detailBody query false file).2 ∧
    (mainRun resp detailBody query true file).1 =
      OutItem.debugMsg ("Fetching papers for query: " ++ query) ::
        (mainRun resp detailBody query false file).1 := by
  unfold mainRun
  cases file with
  | none => simp
  | some f =>
    cases h : save_to_csv (get_papers resp detailBody) with
    | ok content => simp [h]
    | error e => simp [h]

/-! ### Claim C10: invariants of the companies field -/

theorem nasSpec_nil_of_unflagged (authors : List String) :
    ∀ (affs : List String) (i : Nat), (∀ aff ∈ affs, is_non_academic aff = false) →
      nasSpec authors i affs = [] := by
  intro affs
  induction affs with
  | nil => intro i _; rfl
  | cons aff rest ih =>
    intro i hall
    unfold nasSpec
    rw [hall aff (by simp), ih (i + 1) (fun a ha => hall a (List.mem_cons_of_mem _ ha))]
    simp

/-- C10: every entry of the companies collection contains at least one
industry keyword and is one of the payload's extracted affiliations; when no
affiliation is flagged, both the `Non-academic Author(s)` and the
`Company Affiliation(s)` fields hold the sentinel `"None"`. -/
theorem companies_invariant (paper_id text : String) :
    (∀ s, s ∈ (classify (findAuthors text) (findAffiliations text)).2 →
      (∃ k ∈ NON_ACADEMIC_KEYWORDS, k.data <:+: s.data) ∧ s ∈ findAffiliations text) ∧
    ((∀ aff ∈ findAffiliations text, is_non_academic aff = false) →
      (fetch_paper_details paper_id text).NonAcademicAuthors = "None" ∧
      (fetch_paper_details paper_id text).CompanyAffiliations = "None") := by
  constructor
  · intro s hs
    unfold classify at hs
    rw [classifyLoop_eq] at hs
    simp only [mem_foldl_insertCompany, List.not_mem_nil, false_or, List.mem_filter] at hs
    refine ⟨?_, hs.1⟩
    have := hs.2
    unfold is_non_academic at this
    rw [List.any_eq_true] at this
    obtain ⟨k, hk, hkin⟩ := this
    exact ⟨k, hk, of_decide_eq_true hkin⟩
  · intro hall
    have hfilter : (findAffiliations text).filter is_non_academic = [] := by
      rw [List.filter_eq_nil_iff]
      intro a ha
      rw [hall a ha]
      simp
    have hclass : classify (findAuthors text) (findAffiliations text) = ([], []) := by
      unfold classify
      rw [classifyLoop_eq, hfilter, nasSpec_nil_of_unflagged _ _ _ hall]
      rfl
    constructor
    · simp [fetch_paper_details, hclass]
    · simp [fetch_paper_details, hclass]

theorem companies_invariant_witness :
    (fetch_paper_details "123" "<Affiliation>Stanford University</Affiliation>").NonAcademicAuthors = "None" ∧
    (fetch_paper_details "123" "<Affiliation>Stanford University</Affiliation>").CompanyAffiliations = "None" :=
  (companies_invariant "123" "<Affiliation>Stanford University</Affiliation>").2 (by decide)

/-! ### Claim C8: CSV round trip -/

/-- What may legally follow a rendered field: a comma or a line terminator. -/
def stopsField (r : List Char) : Prop :=
  (∃ cs, r = ',' :: cs) ∨ (∃ cs, r = '\r' :: cs)

theorem asString_data (s : String) : s.data.asString = s := rfl

theorem parseUnquoted_stops {r : List Char} (hr : stopsField r) :
    parseUnquoted r = ([], r) := by
  rcases hr with ⟨cs, rfl⟩ | ⟨cs, rfl⟩ <;> simp [parseUnquoted]

theorem parseUnquoted_render {s r : List Char}
    (hs : ∀ c ∈ s, isCsvSpecial c = false) (hr : stopsField r) :
    parseUnquoted (s ++ r) = (s, r) := by
  induction s with
  | nil => simpa using parseUnquoted_stops hr
  | cons c cs ih =>
    have hc := hs c (by simp)
    simp only [isCsvSpecial, Bool.or_eq_false_iff, decide_eq_false_iff_not] at hc
    rw [List.cons_append, parseUnquoted,
      if_neg (by simp [hc.1.1.1, hc.1.2, hc.2]),
      ih (fun a ha => hs a (List.mem_cons_of_mem _ ha))]

theorem parseQuoted_escape {s r : List Char} (hr : ∀ cs, r ≠ '"' :: cs) :
    parseQuoted (escapeQuotes s ++ '"' :: r) = (s, r) := by
  induction s with
  | nil =>
    match r, hr with
    | [], _ => rfl
    | c2 :: cs2, hr =>
      have hc2 : c2 ≠ '"' := fun h => hr cs2 (by rw [h])
      simp [escapeQuotes, parseQuoted, hc2]
  | cons c cs ih =>
    by_cases hc : c = '"'
    · subst hc
      simp [escapeQuotes, parseQuoted, ih]
    · rw [parseQuoted.eq_def]
      simp [escapeQuotes, hc, ih]

theorem stopsField_ne_quote {r : List Char} (hr : stopsField r) :
    ∀ cs, r ≠ '"' :: cs := by
  rcases hr with ⟨cs, rfl⟩ | ⟨cs, rfl⟩ <;> intro cs2 h <;> simp at h

theorem parseField_render {s : String} {r : List Char} (hr : stopsField r) :
    parseField (renderField s ++ r) = (s, r) := by
  by_cases hq : s.data.any isCsvSpecial
  · rw [renderField, if_pos hq]
    have hshape : ('"' :: (escapeQuotes s.data ++ ['"'])) ++ r
        = '"' :: (escapeQuotes s.data ++ '"' :: r) := by simp
    rw [hshape, parseField, if_pos rfl, parseQuoted_escape (stopsField_ne_quote hr)]
    simp [asString_data]
  · have hs : ∀ c ∈ s.data, isCsvSpecial c = false := by
      intro c hc
      rw [Bool.eq_false_iff]
      intro hspec
      exact hq (List.any_eq_true.mpr ⟨c, hc, hspec⟩)
    rw [renderField, if_neg hq]
    match hdata : s.data with
    | [] =>
      have hse : s = "" := by
        have := congrArg List.asString hdata
        rwa [asString_data] at this
      subst hse
      rcases hr with ⟨cs, rfl⟩ | ⟨cs, rfl⟩ <;>
        simp [parseField, parseUnquoted, List.asString]
    | c :: cs =>
      have hcq : c ≠ '"' := by
        have := hs c (by rw [hdata]; simp)
        simp only [isCsvSpecial, Bool.or_eq_false_iff, decide_eq_false_iff_not] at this
        exact this.1.1.2
      have hse : (c :: cs).asString = s := by
        have h2 := congrArg List.asString hdata
        rw [asString_data] at h2
        exact h2.symm
      rw [List.cons_append, parseField, if_neg hcq, ← List.cons_append,
        parseUnquoted_render (by rw [hdata] at hs; exact hs) hr]
      simp [hse]

theorem parseRecordFuel_render :
    ∀ (fields : List String) (fuel : Nat) (rest : List Char),
      fields ≠ [] → fields.length ≤ fuel →
      parseRecordFuel fuel (renderFields fields ++ '\r' :: '\n' :: rest) = (fields, rest)
  | [], _, _, hne, _ => absurd rfl hne
  | [f], fuel, rest, _, hfuel => by
    match fuel, hfuel with
    | g + 1, _ =>
      rw [renderFields, parseRecordFuel]
      simp only [parseField_render (Or.inr ⟨_, rfl⟩)]
      simp
  | f :: g :: t, fuel, rest, _, hfuel => by
    match fuel, hfuel with
    | fu + 1, hfuel =>
      have hshape : renderFields (f :: g :: t) ++ '\r' :: '\n' :: rest
          = renderField f ++ ',' :: (renderFields (g :: t) ++ '\r' :: '\n' :: rest) := by
        simp [renderFields]
      rw [hshape, parseRecordFuel]
      simp only [parseField_render (Or.inl ⟨_, rfl⟩)]
      rw [parseRecordFuel_render (g :: t) fu rest (List.cons_ne_nil g t) (by
        simp only [List.length_cons] at hfuel ⊢
        omega)]
      simp

theorem renderFields_length_ge :
    ∀ fields : List String, fields.length ≤ (renderFields fields).length + 1
  | [] => by simp [renderFields]
  | [f] => by simp [renderFields]
  | f :: g :: t => by
    have ih := renderFields_length_ge (g :: t)
    simp only [renderFields, List.length_append, List.length_cons] at ih ⊢
    omega

theorem renderRows_length_ge :
    ∀ rows : List (List String), rows.length ≤ (renderRows rows).length
  | [] => by simp [renderRows]
  | row :: rows => by
    have ih := renderRows_length_ge rows
    simp only [renderRows, renderRow, List.length_append, List.length_cons]
    omega

theorem parseRowsFuel_render :
    ∀ (rows : List (List String)) (fuel : Nat),
      (∀ row ∈ rows, row ≠ []) → rows.length ≤ fuel →
      parseRowsFuel fuel (renderRows rows) = rows := by
  intro rows
  induction rows with
  | nil =>
    intro fuel _ _
    match fuel with
    | 0 => rfl
    | g + 1 => rw [parseRowsFuel]; rfl
  | cons row rows ih =>
    intro fuel hne hfuel
    match fuel, hfuel with
    | g + 1, hfuel =>
      have hrw : renderRows (row :: rows)
          = renderFields row ++ '\r' :: '\n' :: renderRows rows := by
        simp [renderRows, renderRow]
      rw [hrw, parseRowsFuel]
      rw [if_neg (by simp)]
      rw [parseRecordFuel_render row _ _ (hne row (by simp)) (by
        have h1 := renderFields_length_ge row
        simp only [List.length_append, List.length_cons]
        omega)]
      simp only
      rw [ih g (fun r hr => hne r (List.mem_cons_of_mem _ hr)) (by
        simp only [List.length_cons] at hfuel
        omega)]

/-- C8: writing a non-empty record list to the delimited file and parsing the
file back yields the header row followed by exactly one row per record whose
six fields equal the record's fields — embedded delimiters, quotes and
newlines included. -/
theorem csv_round_trip (papers : List Record) (h : papers ≠ []) :
    ∃ content, save_to_csv papers = Except.ok content ∧
      parseCSV content = headerFields :: papers.map recordToRow ∧
      (papers.map recordToRow).length = papers.length := by
  match papers, h with
  | p :: ps, _ =>
    refine ⟨_, rfl, ?_, by simp⟩
    unfold parseCSV
    have hdata : ((renderRows (headerFields :: (p :: ps).map recordToRow)).asString).data
        = renderRows (headerFields :: (p :: ps).map recordToRow) := rfl
    rw [hdata]
    apply parseRowsFuel_render
    · intro row hrow
      rcases List.mem_cons.mp hrow with hr | hr
      · subst hr; simp [headerFields]
      · obtain ⟨r, _, hr⟩ := List.mem_map.mp hr
        subst hr; simp [recordToRow]
    · have := renderRows_length_ge (headerFields :: (p :: ps).map recordToRow)
      omega

/-- A record whose title embeds the delimiter and the quote character. -/
def commaTitleRecord : Record :=
  { PubmedID := "123"
    Title := "Vaccines, mRNA and \"tricky\" titles"
    PublicationDate := "2021-Jan-15"
    NonAcademicAuthors := "Smith J"
    CompanyAffiliations := "Moderna Inc, Pfizer Inc"
    CorrespondingAuthorEmail := "john.doe@moderna.com" }

theorem csv_round_trip_witness :
    ∃ content, save_to_csv [commaTitleRecord] = Except.ok content ∧
      parseCSV content = headerFields :: [commaTitleRecord].map recordToRow ∧
      ([commaTitleRecord].map recordToRow).length = [commaTitleRecord].length :=
  csv_round_trip [commaTitleRecord] (by simp)

end PubMed
